import Mathlib

/-
Verification development for the VidUtils packet pipeline
(src/vidfile_iterator.py).

The Python module processes a demultiplexed stream of compressed video
packets: it filters packets by arbitrary predicates while preserving
"consecutive runs", groups packets into decodable units, and decodes each
unit into frames with explicit decoder flushing.  Everything here is a
shallow embedding of that module: generators become pure functions on
lists (the repository requires that every yielded sub-iterator be fully
consumed before its parent is advanced, which makes the generator
semantics coincide with the list semantics embedded below), and the
external av library (containers, codec contexts) becomes an explicit
oracle record whose fields describe what the library would return.
-/

namespace VidUtils

/-- Frames are opaque payloads produced by the external decoder; the core
never inspects them, so we model them as abstract tokens. -/
abbrev Frame := Nat

/-- Model of an av packet as the core uses it: nullable presentation
timestamp, payload size in bytes, and the keyframe flag. -/
structure Packet where
  pts : Option Int
  size : Nat
  is_keyframe : Bool
deriving DecidableEq, Inhabited

/-- packet_data_type from vidfile_iterator.py: a (packet_no, packet) pair.
Ordinals are Int because the decode pipeline uses -1 as a sentinel. -/
abbrev packet_data_type := Int × Packet

/-- Embedding of `_create_consecutive_iterator` (vidfile_iterator.py,
lines 22-56), restricted to the part after the initial
`yield start_packet_data`: given the ordinal of the last yielded packet
and the shared stream iterator, it returns the packets yielded by the
generator together with the state of the shared iterator when the
generator stops.  The Python `break` statements (line 47 on a filter
failure, line 52 on a non-consecutive ordinal) leave the loop with the
offending packet already consumed from the shared iterator, so the
remainder returned here starts after that packet. -/
def create_consecutive_iterator (last_packet_no : Int)
    (stream_iterator : List packet_data_type)
    (filter_func : packet_data_type → Bool) :
    List packet_data_type × List packet_data_type :=
  match stream_iterator with
  | [] => ([], [])
  | next_packet_data :: rest =>
    if ¬ filter_func next_packet_data then
      -- line 45-47: packet fails the filter; break (packet consumed, dropped)
      ([], rest)
    else if next_packet_data.1 ≠ last_packet_no + 1 then
      -- line 50-52: non-consecutive ordinal; break (packet consumed, dropped)
      ([], rest)
    else
      -- line 55-56: yield the packet and continue
      let r := create_consecutive_iterator next_packet_data.1 rest filter_func
      (next_packet_data :: r.1, r.2)

/-- The shared iterator only ever advances: the remainder left behind by
`_create_consecutive_iterator` is never longer than the input. -/
theorem create_consecutive_iterator_snd_length_le
    (last_packet_no : Int) (stream_iterator : List packet_data_type)
    (filter_func : packet_data_type → Bool) :
    (create_consecutive_iterator last_packet_no stream_iterator filter_func).2.length
      ≤ stream_iterator.length := by
  induction stream_iterator generalizing last_packet_no with
  | nil => simp [create_consecutive_iterator]
  | cons p rest ih =>
    simp only [create_consecutive_iterator]
    by_cases h1 : filter_func p
    · by_cases h2 : p.1 = last_packet_no + 1
      · simp only [h1, h2]
        simpa using Nat.le_succ_of_le (ih _)
      · simp [h1, h2, Nat.le_succ_of_le]
    · simp [h1, Nat.le_succ_of_le]

/-- Embedding of `_process_single_stream` (vidfile_iterator.py, lines
58-92): scan the stream; each packet that matches the filter opens a run
consisting of that packet followed by whatever
`_create_consecutive_iterator` yields; the scan then resumes from the
state in which that generator left the shared iterator.  Packets that
fail the filter between runs are dropped. -/
def process_single_stream (filter_func : packet_data_type → Bool) :
    List packet_data_type → List (List packet_data_type)
  | [] => []
  | packet_data :: rest =>
    if filter_func packet_data then
      (packet_data :: (create_consecutive_iterator packet_data.1 rest filter_func).1)
        :: process_single_stream filter_func
            (create_consecutive_iterator packet_data.1 rest filter_func).2
    else
      process_single_stream filter_func rest
termination_by s => s.length
decreasing_by
  · exact Nat.lt_succ_of_le (create_consecutive_iterator_snd_length_le _ _ _)
  · exact Nat.lt_succ_self _

/-- Python distinguishes re-iterable sequences (lists) from one-shot
iterators (generators): `next(iter(x))` leaves a list untouched but
consumes the head of a generator.  `_normalize_input` probes its input
with exactly such a call, so the embedding must record which kind each
sequence is. -/
inductive PKind where
  | gen  -- a one-shot iterator or generator
  | lst  -- a re-iterable sequence
deriving DecidableEq

/-- The two input shapes accepted by `filter_stream_preserve_consecutivity`:
a single packet stream, or a stream of packet streams (each inner stream
with its own kind). -/
inductive FilterInput where
  | single (k : PKind) (pkts : List packet_data_type)
  | multi (k : PKind) (streams : List (PKind × List packet_data_type))

/-- Embedding of `_normalize_input` (vidfile_iterator.py, lines 94-124).
`first_item = next(iter(stream))` consumes the head when the input is a
one-shot iterator and raises StopIteration on an empty input (line 119:
return []).  When the first item is a (int, packet) tuple the function
returns `[stream]` (line 111) WITHOUT re-injecting the consumed head; in
the other branch (lines 114-117) `reconstruct_stream` re-yields the
first item followed by `yield from stream` - for a re-iterable outer
list that second traversal starts again from element 0, so the first
inner stream object appears twice (drained on its second appearance if
it was a one-shot iterator, repeated in full if it was re-iterable). -/
def normalize_input : FilterInput → List (List packet_data_type)
  | .single _ [] => []                                  -- StopIteration: return []
  | .single .lst pkts => [pkts]                         -- list input: probe is lossless
  | .single .gen (_ :: tl) => [tl]                      -- generator input: head lost
  | .multi _ [] => []                                   -- StopIteration: return []
  | .multi .gen streams => streams.map (·.2)            -- head re-injected correctly
  | .multi .lst ((.gen, s0) :: rest) =>
      s0 :: [] :: rest.map (·.2)                        -- s0 yielded twice, drained once
  | .multi .lst ((.lst, s0) :: rest) =>
      s0 :: s0 :: rest.map (·.2)                        -- s0 re-iterated in full twice

/-- Embedding of `filter_stream_preserve_consecutivity` (vidfile_iterator.py,
lines 126-170): normalize the input, then process each stream in order. -/
def filter_stream_preserve_consecutivity (packet_stream : FilterInput)
    (filter_func : packet_data_type → Bool) : List (List packet_data_type) :=
  ((normalize_input packet_stream).map (process_single_stream filter_func)).flatten

/-- All packets of the input, in order, for comparison with what the
filtering scan examines. -/
def FilterInput.allPackets : FilterInput → List packet_data_type
  | .single _ pkts => pkts
  | .multi _ streams => (streams.map (·.2)).flatten

/-- A concrete packet used in evaluation theorems: ordinal n, pts n,
size 100 bytes, not a keyframe. -/
def testPacket (n : Int) : packet_data_type := (n, ⟨some n, 100, false⟩)

/-- chainFrom n l: every packet of l continues an ordinal chain whose last
element so far was n (first element has ordinal n+1, and so on). -/
def chainFrom (n : Int) : List packet_data_type → Bool
  | [] => true
  | p :: tl => (p.1 == n + 1) && chainFrom p.1 tl

/-- The in-run consecutivity invariant claimed by the spec:
ordinal[i+1] = ordinal[i] + 1 for every index i of the run. -/
def OrdinalsConsecutive (run : List packet_data_type) : Prop :=
  ∀ i : Nat, i + 1 < run.length →
    (run.getD (i + 1) default).1 = (run.getD i default).1 + 1

/-- Every packet yielded by the consecutive-run generator matches the
filter. -/
theorem create_consecutive_iterator_mem_filter
    (stream_iterator : List packet_data_type) (last_packet_no : Int)
    (filter_func : packet_data_type → Bool) :
    ∀ pd ∈ (create_consecutive_iterator last_packet_no stream_iterator filter_func).1,
      filter_func pd = true := by
  induction stream_iterator generalizing last_packet_no with
  | nil => simp [create_consecutive_iterator]
  | cons p rest ih =>
    simp only [create_consecutive_iterator]
    by_cases h1 : filter_func p = true
    · by_cases h2 : p.1 = last_packet_no + 1
      · rw [if_neg (by simp [h1]), if_neg (by simp [h2])]
        intro pd hpd
        rcases List.mem_cons.mp hpd with hpd | hpd
        · subst hpd; exact h1
        · exact ih p.1 pd hpd
      · simp [h1, h2]
    · simp [h1]

/-- The packets yielded by the consecutive-run generator form an ordinal
chain continuing the start ordinal. -/
theorem create_consecutive_iterator_chain
    (stream_iterator : List packet_data_type) (last_packet_no : Int)
    (filter_func : packet_data_type → Bool) :
    chainFrom last_packet_no
      (create_consecutive_iterator last_packet_no stream_iterator filter_func).1 = true := by
  induction stream_iterator generalizing last_packet_no with
  | nil => simp [create_consecutive_iterator, chainFrom]
  | cons p rest ih =>
    simp only [create_consecutive_iterator]
    by_cases h1 : filter_func p = true
    · by_cases h2 : p.1 = last_packet_no + 1
      · rw [if_neg (by simp [h1]), if_neg (by simp [h2])]
        rw [chainFrom, Bool.and_eq_true, beq_iff_eq]
        exact ⟨h2, by rw [h2]; exact ih _⟩
      · simp [h1, h2, chainFrom]
    · simp [h1, chainFrom]

/-- Every run produced by the single-stream scan is a filter-matching
packet followed by a filter-matching ordinal chain. -/
theorem process_single_stream_shape (filter_func : packet_data_type → Bool)
    (s : List packet_data_type) :
    ∀ run ∈ process_single_stream filter_func s,
      ∃ p tl, run = p :: tl ∧ filter_func p = true ∧
        (∀ q ∈ tl, filter_func q = true) ∧ chainFrom p.1 tl = true := by
  induction s using process_single_stream.induct filter_func with
  | case1 => simp [process_single_stream]
  | case2 pd rest hf ih =>
    intro run hrun
    rw [process_single_stream, if_pos hf] at hrun
    rcases List.mem_cons.mp hrun with h | h
    · exact ⟨pd, _, h, hf,
        create_consecutive_iterator_mem_filter _ _ _,
        create_consecutive_iterator_chain _ _ _⟩
    · exact ih run h
  | case3 pd rest hf ih =>
    intro run hrun
    rw [process_single_stream, if_neg hf] at hrun
    exact ih run hrun

/-- Each element of an ordinal chain sits at offset (index + 1) from the
chain start. -/
theorem chainFrom_getD (l : List packet_data_type) :
    ∀ n : Int, chainFrom n l = true →
      ∀ i : Nat, i < l.length → (l.getD i default).1 = n + (i : Int) + 1 := by
  induction l with
  | nil => intro n _ i hi; simp at hi
  | cons p tl ih =>
    intro n hc i hi
    rw [chainFrom, Bool.and_eq_true, beq_iff_eq] at hc
    obtain ⟨h1, h2⟩ := hc
    cases i with
    | zero => simpa using h1
    | succ j =>
      have hj : j < tl.length := by simpa using hi
      have := ih p.1 h2 j hj
      simp only [List.getD_cons_succ, this, h1]
      push_cast
      ring

/-- A packet followed by an ordinal chain has pairwise-consecutive
ordinals. -/
theorem chainFrom_ordinalsConsecutive (p : packet_data_type)
    (tl : List packet_data_type) (hc : chainFrom p.1 tl = true) :
    OrdinalsConsecutive (p :: tl) := by
  intro i hi
  have hfor := chainFrom_getD tl p.1 hc
  cases i with
  | zero =>
    have h0 : (0 : Nat) < tl.length := by simpa using hi
    have := hfor 0 h0
    simpa using this
  | succ j =>
    have hj1 : j + 1 < tl.length := by simpa using hi
    have hj : j < tl.length := by omega
    have e1 := hfor (j + 1) hj1
    have e2 := hfor j hj
    simp only [List.getD_cons_succ, e1, e2]
    push_cast
    ring

/-- C1: on the packet sequence with ordinals [0,1,2,5,6,7] and the
always-true predicate (given as a re-iterable list, so normalization is
lossless), filter_stream_preserve_consecutivity does NOT yield the runs
[0,1,2] and [5,6,7] the claim requires: the packet with ordinal 5 is the
look-ahead packet that closes the first run, and the generator discards
it, so the second run is [6,7].  This theorem evaluates the code at the
claimed input. -/
theorem C1_gap_splits_runs_eval :
    filter_stream_preserve_consecutivity
      (.single .lst [testPacket 0, testPacket 1, testPacket 2,
        testPacket 5, testPacket 6, testPacket 7]) (fun _ => true)
      = [[testPacket 0, testPacket 1, testPacket 2],
         [testPacket 6, testPacket 7]] := by
  simp [filter_stream_preserve_consecutivity, normalize_input,
    process_single_stream, create_consecutive_iterator, testPacket]

/-- C2: when the input is a SINGLE one-shot packet iterator, the element
consumed by the input-shape probe in `_normalize_input` is NOT
re-injected (line 111 returns `[stream]` with the head already consumed),
so the filtering scan examines strictly fewer packets than the input
holds: on the two-packet stream [0,1] the scan sees only packet 1.  This
theorem evaluates the code at that failing input. -/
theorem C2_single_iterator_head_lost_eval :
    filter_stream_preserve_consecutivity
      (.single .gen [testPacket 0, testPacket 1]) (fun _ => true)
      = [[testPacket 1]]
    ∧ FilterInput.allPackets (.single .gen [testPacket 0, testPacket 1])
      = [testPacket 0, testPacket 1] := by
  constructor
  · simp [filter_stream_preserve_consecutivity, normalize_input,
      process_single_stream, create_consecutive_iterator, testPacket]
  · rfl

/-- C3: the look-ahead packet that closes a run IS lost rather than
re-evaluated as a fresh candidate: on ordinals [3,4,7,8] with the
always-true predicate, packet 7 satisfies the predicate and should open
the second run, but the code yields [3,4] and [8], and packet 7 appears
in no run.  This theorem evaluates the code at that failing input. -/
theorem C3_lookahead_packet_lost_eval :
    filter_stream_preserve_consecutivity
      (.single .lst [testPacket 3, testPacket 4, testPacket 7, testPacket 8])
      (fun _ => true)
      = [[testPacket 3, testPacket 4], [testPacket 8]]
    ∧ (fun _ : packet_data_type => true) (testPacket 7) = true
    ∧ testPacket 7 ∉
        (filter_stream_preserve_consecutivity
          (.single .lst [testPacket 3, testPacket 4, testPacket 7, testPacket 8])
          (fun _ => true)).flatten := by
  refine ⟨?_, rfl, ?_⟩ <;>
    simp [filter_stream_preserve_consecutivity, normalize_input,
      process_single_stream, create_consecutive_iterator, testPacket]

/-- C4: every run yielded by filter_stream_preserve_consecutivity (under
the required full-consumption discipline embodied by the list semantics)
is non-empty, consists only of predicate-matching packets, and has
pairwise-consecutive ordinals: ordinal[i+1] = ordinal[i] + 1 within the
run. -/
theorem C4_run_invariants (inp : FilterInput) (filter_func : packet_data_type → Bool)
    (run : List packet_data_type)
    (h : run ∈ filter_stream_preserve_consecutivity inp filter_func) :
    run ≠ [] ∧ (∀ pd ∈ run, filter_func pd = true) ∧ OrdinalsConsecutive run := by
  rw [filter_stream_preserve_consecutivity] at h
  rcases List.mem_flatten.mp h with ⟨l, hl, hrun⟩
  rcases List.mem_map.mp hl with ⟨s, _, rfl⟩
  rcases process_single_stream_shape filter_func s run hrun with
    ⟨p, tl, rfl, hp, htl, hchain⟩
  refine ⟨by simp, ?_, chainFrom_ordinalsConsecutive p tl hchain⟩
  intro pd hpd
  rcases List.mem_cons.mp hpd with hpd | hpd
  · subst hpd; exact hp
  · exact htl pd hpd

/-- Witness for C4 at a concrete input: the single run [10,11] produced
from the two-packet stream [10,11] under the always-true predicate. -/
theorem C4_run_invariants_witness :
    ([testPacket 10, testPacket 11] ∈
      filter_stream_preserve_consecutivity
        (.single .lst [testPacket 10, testPacket 11]) (fun _ => true))
    ∧ ([testPacket 10, testPacket 11] ≠ ([] : List packet_data_type) ∧
        (∀ pd ∈ ([testPacket 10, testPacket 11] : List packet_data_type),
          (fun _ : packet_data_type => true) pd = true) ∧
        OrdinalsConsecutive [testPacket 10, testPacket 11]) := by
  have hmem : [testPacket 10, testPacket 11] ∈
      filter_stream_preserve_consecutivity
        (.single .lst [testPacket 10, testPacket 11]) (fun _ => true) := by
    simp [filter_stream_preserve_consecutivity, normalize_input,
      process_single_stream, create_consecutive_iterator, testPacket]
  exact ⟨hmem, C4_run_invariants _ _ _ hmem⟩

/-- A concrete keyframe packet for evaluation theorems. -/
def kfPacket (n : Int) : packet_data_type := (n, ⟨some n, 100, true⟩)

/-- Loop body of `group_packets_starting_with_keyframe` (vidfile_iterator.py,
lines 172-190), with the mutable `group` list as an explicit accumulator.
Every modelled packet has the `is_keyframe` attribute, so the
`hasattr(packet, 'is_keyframe')` guard on line 181 is always true here.
On exhaustion the final non-empty group is yielded (lines 189-190). -/
def gpk_loop (filter_func : packet_data_type → Bool) :
    List packet_data_type → List packet_data_type → List (List packet_data_type)
  | [], group => if group.isEmpty then [] else [group]
  | packet_data :: rest, group =>
    if filter_func packet_data then
      if packet_data.2.is_keyframe then
        -- lines 181-184: close the running group (if any), start a new one
        if group.isEmpty then gpk_loop filter_func rest [packet_data]
        else group :: gpk_loop filter_func rest [packet_data]
      else
        -- lines 185-188: append to the running group; before the first
        -- keyframe the packet is skipped even though it passes the filter
        if group.isEmpty then gpk_loop filter_func rest group
        else gpk_loop filter_func rest (group ++ [packet_data])
    else gpk_loop filter_func rest group

/-- Embedding of `group_packets_starting_with_keyframe` (vidfile_iterator.py,
lines 172-190). -/
def group_packets_starting_with_keyframe (packet_stream : List packet_data_type)
    (filter_func : packet_data_type → Bool) : List (List packet_data_type) :=
  gpk_loop filter_func packet_stream []

/-- Helper: (l.dropWhile p) is never longer than l. -/
theorem dropWhile_length_le {α : Type} (p : α → Bool) :
    ∀ l : List α, (l.dropWhile p).length ≤ l.length := by
  intro l
  induction l with
  | nil => simp
  | cons a tl ih =>
    rw [List.dropWhile_cons]
    by_cases h : p a
    · simp only [h, if_pos]
      exact Nat.le_succ_of_le ih
    · simp [h]

/-- Modelled from the spec (section 4.2 wording, as the reference the code
is compared against): scanning the predicate-passing packets, a new group
starts at each keyframe-flagged packet and extends over the following
non-keyframe packets until the next keyframe; passing packets seen before
the first keyframe are dropped.  Applied to `stream.filter f` this is the
grouping the spec describes. -/
def keyframeChunks : List packet_data_type → List (List packet_data_type)
  | [] => []
  | p :: tl =>
    if p.2.is_keyframe then
      (p :: tl.takeWhile (fun q => !q.2.is_keyframe))
        :: keyframeChunks (tl.dropWhile (fun q => !q.2.is_keyframe))
    else
      keyframeChunks tl
termination_by l => l.length
decreasing_by
  · exact Nat.lt_succ_of_le (dropWhile_length_le _ _)
  · exact Nat.lt_succ_self _

/-- Unfolding keyframeChunks at a keyframe-headed list. -/
theorem keyframeChunks_cons_pos (p : packet_data_type)
    (tl : List packet_data_type) (hk : p.2.is_keyframe = true) :
    keyframeChunks (p :: tl)
      = (p :: tl.takeWhile (fun q => !q.2.is_keyframe))
          :: keyframeChunks (tl.dropWhile (fun q => !q.2.is_keyframe)) := by
  rw [keyframeChunks, if_pos hk]

/-- Unfolding keyframeChunks at a non-keyframe head. -/
theorem keyframeChunks_cons_neg (p : packet_data_type)
    (tl : List packet_data_type) (hk : ¬ p.2.is_keyframe = true) :
    keyframeChunks (p :: tl) = keyframeChunks tl := by
  rw [keyframeChunks, if_neg hk]

/-- The keyframe-grouping loop, related to the spec-side chunking, for
both accumulator states (empty, and a running non-empty group). -/
theorem gpk_loop_eq (filter_func : packet_data_type → Bool) :
    ∀ s : List packet_data_type,
      gpk_loop filter_func s [] = keyframeChunks (s.filter filter_func) ∧
      ∀ g : List packet_data_type, g ≠ [] →
        gpk_loop filter_func s g =
          (g ++ (s.filter filter_func).takeWhile (fun q => !q.2.is_keyframe))
            :: keyframeChunks
                ((s.filter filter_func).dropWhile (fun q => !q.2.is_keyframe)) := by
  intro s
  induction s with
  | nil =>
    refine ⟨by simp [gpk_loop, keyframeChunks], ?_⟩
    intro g hg
    simp [gpk_loop, keyframeChunks, List.isEmpty_iff, hg]
  | cons p tl ih =>
    obtain ⟨ihA, ihB⟩ := ih
    by_cases hf : filter_func p = true
    · by_cases hk : p.2.is_keyframe = true
      · constructor
        · rw [gpk_loop, if_pos hf, if_pos hk, if_pos (by simp),
            ihB [p] (by simp), List.filter_cons_of_pos hf,
            keyframeChunks_cons_pos p _ hk]
          simp
        · intro g hg
          rw [gpk_loop, if_pos hf, if_pos hk,
            if_neg (by simp [List.isEmpty_iff, hg]),
            ihB [p] (by simp), List.filter_cons_of_pos hf,
            List.takeWhile_cons, List.dropWhile_cons]
          have hkc := keyframeChunks_cons_pos p (tl.filter filter_func) hk
          simp [hk, hkc]
      · have hk' : (!p.2.is_keyframe) = true := by simp [hk]
        constructor
        · rw [gpk_loop, if_pos hf, if_neg hk, if_pos (by simp), ihA,
            List.filter_cons_of_pos hf, keyframeChunks_cons_neg p _ hk]
        · intro g hg
          rw [gpk_loop, if_pos hf, if_neg hk,
            if_neg (by simp [List.isEmpty_iff, hg]),
            ihB (g ++ [p]) (by simp),
            List.filter_cons_of_pos hf, List.takeWhile_cons,
            List.dropWhile_cons]
          simp [hk', List.append_assoc]
    · have hf' : ¬ filter_func p = true := hf
      refine ⟨?_, ?_⟩
      · rw [gpk_loop, if_neg hf', ihA,
          List.filter_cons_of_neg (by simpa using hf')]
      · intro g hg
        rw [gpk_loop, if_neg hf', ihB g hg,
          List.filter_cons_of_neg (by simpa using hf')]

/-- Every chunk is non-empty, starts with a keyframe, and draws its
packets from the chunked list. -/
theorem keyframeChunks_shape :
    ∀ l : List packet_data_type, ∀ g ∈ keyframeChunks l,
      g ≠ [] ∧ (g.getD 0 default).2.is_keyframe = true ∧ ∀ q ∈ g, q ∈ l := by
  intro l
  induction l using keyframeChunks.induct with
  | case1 => simp [keyframeChunks]
  | case2 p tl hk ih =>
    intro g hg
    rw [keyframeChunks, if_pos hk] at hg
    rcases List.mem_cons.mp hg with h | h
    · subst h
      refine ⟨by simp, by simpa using hk, ?_⟩
      intro q hq
      rcases List.mem_cons.mp hq with h | h
      · simp [h]
      · exact List.mem_cons_of_mem _ ((tl.takeWhile_sublist _).mem h)
    · rcases ih g h with ⟨h1, h2, h3⟩
      exact ⟨h1, h2, fun q hq =>
        List.mem_cons_of_mem _ ((tl.dropWhile_sublist _).mem (h3 q hq))⟩
  | case3 p tl hk ih =>
    intro g hg
    rw [keyframeChunks, if_neg hk] at hg
    rcases ih g hg with ⟨h1, h2, h3⟩
    exact ⟨h1, h2, fun q hq => List.mem_cons_of_mem _ (h3 q hq)⟩

/-- C8: group_packets_starting_with_keyframe computes exactly the
spec-side grouping of the predicate-passing packets (drop passing packets
before the first keyframe; a keyframe starts a group; following passing
non-keyframes extend it; the final group is yielded at exhaustion), and
every yielded group is non-empty, keyframe-headed, and predicate-passing
throughout. -/
theorem C8_keyframe_grouping (packet_stream : List packet_data_type)
    (filter_func : packet_data_type → Bool) :
    group_packets_starting_with_keyframe packet_stream filter_func
      = keyframeChunks (packet_stream.filter filter_func)
    ∧ ∀ g ∈ group_packets_starting_with_keyframe packet_stream filter_func,
        g ≠ [] ∧ (g.getD 0 default).2.is_keyframe = true ∧
          ∀ q ∈ g, filter_func q = true := by
  have heq := (gpk_loop_eq filter_func packet_stream).1
  refine ⟨heq, ?_⟩
  intro g hg
  rw [group_packets_starting_with_keyframe, heq] at hg
  rcases keyframeChunks_shape _ g hg with ⟨h1, h2, h3⟩
  exact ⟨h1, h2, fun q hq => List.of_mem_filter (h3 q hq)⟩

/-- Witness for C8 at a concrete input: the stream
[keyframe 0, non-keyframe 1, keyframe 2] under the always-true predicate
splits into the groups [0,1] and [2]. -/
theorem C8_keyframe_grouping_witness :
    ([kfPacket 0, testPacket 1] ∈
      group_packets_starting_with_keyframe
        [kfPacket 0, testPacket 1, kfPacket 2] (fun _ => true))
    ∧ ([kfPacket 0, testPacket 1] ≠ ([] : List packet_data_type) ∧
        (([kfPacket 0, testPacket 1] : List packet_data_type).getD 0
          default).2.is_keyframe = true ∧
        ∀ q ∈ ([kfPacket 0, testPacket 1] : List packet_data_type),
          (fun _ : packet_data_type => true) q = true) := by
  have hmem : [kfPacket 0, testPacket 1] ∈
      group_packets_starting_with_keyframe
        [kfPacket 0, testPacket 1, kfPacket 2] (fun _ => true) := by
    simp [group_packets_starting_with_keyframe, gpk_loop, kfPacket, testPacket]
  exact ⟨hmem,
    (C8_keyframe_grouping [kfPacket 0, testPacket 1, kfPacket 2]
      (fun _ => true)).2 _ hmem⟩

/-- A group boundary recorded by pass 1 of the two-pass streaming
grouper: ((start ordinal, start pts), (end ordinal, end pts)). -/
abbrev BoundaryInfo := (Int × Option Int) × (Int × Option Int)

/-- The (ordinal, pts) record pass 1 stores for a packet. -/
def pInfo (p : packet_data_type) : Int × Option Int := (p.1, p.2.pts)

/-- Pass 1 of `group_packets_by_pts_and_decode_streaming`
(vidfile_iterator.py, lines 569-592), with the mutable pair
(current_group_start, current_group_end) as an explicit accumulator:
both are set together, so a single Option of the pair suffices. -/
def group_boundaries_loop (filter_func : packet_data_type → Bool) :
    List packet_data_type → Option BoundaryInfo → List BoundaryInfo
  | [], none => []
  | [], some b => [b]                    -- lines 591-592: close the last group
  | p :: rest, cur =>
    if filter_func p then
      match cur with
      | none =>                          -- lines 579-581: start of a new group
        group_boundaries_loop filter_func rest (some (pInfo p, pInfo p))
      | some (s, _) =>                   -- line 582: extend the current group
        group_boundaries_loop filter_func rest (some (s, pInfo p))
    else
      match cur with
      | none => group_boundaries_loop filter_func rest none
      | some b =>                        -- lines 584-588: close the current group
        b :: group_boundaries_loop filter_func rest none

/-- The boundary list computed by pass 1 over a packet stream. -/
def group_boundaries (packet_stream : List packet_data_type)
    (filter_func : packet_data_type → Bool) : List BoundaryInfo :=
  group_boundaries_loop filter_func packet_stream none

/-- The (ordinal, pts) record of the last packet of a list, with a
default for the empty list. -/
def lastInfo (e : Int × Option Int) : List packet_data_type → Int × Option Int
  | [] => e
  | q :: tl => lastInfo (pInfo q) tl

/-- Modelled from the spec (section 4.4 wording, as the reference the
code is compared against): a boundary starts when the predicate becomes
true after being false and ends when it becomes false again, recording
the (ordinal, timestamp) of the first and last matching packets of the
span; ordinal adjacency plays no role. -/
def spec_boundaries : List packet_data_type → (packet_data_type → Bool) → List BoundaryInfo
  | [], _ => []
  | p :: tl, f =>
    if f p then
      (pInfo p, lastInfo (pInfo p) (tl.takeWhile f)) :: spec_boundaries (tl.dropWhile f) f
    else
      spec_boundaries tl f
termination_by l => l.length
decreasing_by
  · exact Nat.lt_succ_of_le (dropWhile_length_le _ _)
  · exact Nat.lt_succ_self _

/-- Unfolding spec_boundaries at a matching head. -/
theorem spec_boundaries_cons_pos (p : packet_data_type)
    (tl : List packet_data_type) (f : packet_data_type → Bool)
    (hf : f p = true) :
    spec_boundaries (p :: tl) f
      = (pInfo p, lastInfo (pInfo p) (tl.takeWhile f))
          :: spec_boundaries (tl.dropWhile f) f := by
  rw [spec_boundaries, if_pos hf]

/-- Unfolding spec_boundaries at a non-matching head. -/
theorem spec_boundaries_cons_neg (p : packet_data_type)
    (tl : List packet_data_type) (f : packet_data_type → Bool)
    (hf : ¬ f p = true) :
    spec_boundaries (p :: tl) f = spec_boundaries tl f := by
  rw [spec_boundaries, if_neg hf]

/-- The pass-1 loop, related to the spec-side boundary list, for both
accumulator states. -/
theorem group_boundaries_loop_eq (filter_func : packet_data_type → Bool) :
    ∀ s : List packet_data_type,
      group_boundaries_loop filter_func s none = spec_boundaries s filter_func ∧
      ∀ st en : Int × Option Int,
        group_boundaries_loop filter_func s (some (st, en)) =
          (st, lastInfo en (s.takeWhile filter_func))
            :: spec_boundaries (s.dropWhile filter_func) filter_func := by
  intro s
  induction s with
  | nil =>
    refine ⟨by simp [group_boundaries_loop, spec_boundaries], ?_⟩
    intro st en
    simp [group_boundaries_loop, spec_boundaries, lastInfo]
  | cons p tl ih =>
    obtain ⟨ihA, ihB⟩ := ih
    by_cases hf : filter_func p = true
    · constructor
      · rw [group_boundaries_loop, if_pos hf, ihB (pInfo p) (pInfo p),
          spec_boundaries_cons_pos p tl filter_func hf]
      · intro st en
        rw [group_boundaries_loop, if_pos hf, ihB st (pInfo p),
          List.takeWhile_cons, List.dropWhile_cons]
        simp [hf, lastInfo]
    · constructor
      · rw [group_boundaries_loop, if_neg hf, ihA,
          spec_boundaries_cons_neg p tl filter_func hf]
      · intro st en
        rw [group_boundaries_loop, if_neg hf, ihA,
          List.takeWhile_cons, List.dropWhile_cons]
        simp [hf, lastInfo, spec_boundaries_cons_neg p tl filter_func hf]

/-- C7: pass 1 of the streaming grouper computes exactly the spec-side
boundary list (a boundary opens at a false-to-true predicate transition,
closes at the next true-to-false transition, and records the (ordinal,
pts) of the first and last matching packets of the span; ordinal
adjacency is irrelevant).  The second conjunct exhibits this on a
concrete stream whose two matching packets have an ordinal gap of 5:
they still form a single boundary, unlike the 4.1 filter. -/
theorem C7_boundaries_by_predicate_transitions
    (packet_stream : List packet_data_type)
    (filter_func : packet_data_type → Bool) :
    group_boundaries packet_stream filter_func
      = spec_boundaries packet_stream filter_func
    ∧ group_boundaries [testPacket 0, testPacket 5] (fun _ => true)
      = [((0, some 0), (5, some 5))] := by
  refine ⟨(group_boundaries_loop_eq filter_func packet_stream).1, ?_⟩
  simp [group_boundaries, group_boundaries_loop, pInfo, testPacket]

/-- Errors raised by the external av library: a Python TypeError (for
example seeking to a None pts) or any other exception, tagged by a
number. -/
inductive VErr where
  | typeErr
  | err (n : Nat)
deriving DecidableEq

/-- Embedding of `decode_packet_to_frames` (vidfile_iterator.py, lines
321-347): the decoder either returns a frame list or raises; a raise is
caught and degrades to the empty list.  The same try/except shape appears
inline at lines 493-498 and 636-642. -/
def decode_packet_to_frames (decode_result : Except VErr (List Frame)) : List Frame :=
  match decode_result with
  | .ok frames => frames
  | .error _ => []

/-- Embedding of `flush_decoder` (vidfile_iterator.py, lines 420-440):
`codec_context.decode(None)` either returns the buffered frames or
raises; a raise is caught and degrades to the empty list.  The same
try/except shape appears inline at lines 505-512 and 648-655. -/
def flush_decoder (flush_result : Except VErr (List Frame)) : List Frame :=
  match flush_result with
  | .ok frames => frames
  | .error _ => []

/-- Python truthiness of the `max_packets` argument as tested on line
405: None and 0 are falsy, every positive count is truthy. -/
def max_packets_truthy : Option Nat → Bool
  | none => false
  | some 0 => false
  | some (_ + 1) => true

/-- The per-packet scan of `decode_all_packets_with_flush`
(vidfile_iterator.py, lines 393-406) with the mutable `packet_count` as
an explicit argument: each packet yields (ordinal, frames); after
incrementing the count the loop breaks when `max_packets` is truthy and
the count has reached it. -/
def decode_entries (decode_fn : packet_data_type → Except VErr (List Frame))
    (max_packets : Option Nat) :
    List packet_data_type → Nat → List (Int × List Frame)
  | [], _ => []
  | packet_data :: rest, packet_count =>
    (packet_data.1, decode_packet_to_frames (decode_fn packet_data)) ::
      (if max_packets_truthy max_packets ∧ max_packets.getD 0 ≤ packet_count + 1
       then []
       else decode_entries decode_fn max_packets rest (packet_count + 1))

/-- Embedding of `decode_all_packets_with_flush` (vidfile_iterator.py,
lines 377-418).  `decode_fn` is what `codec_context.decode` would return
per packet and `flush_result` what the final `decode(None)` would
return.  The result pairs the yielded entries with the number of flush
calls performed: the codec context is captured from the first packet
(lines 397-398), so for an empty input it stays None and line 409 skips
the flush entirely; otherwise the decoder is flushed once, and the
sentinel entry (-1, frames) is emitted only when the flush returned a
non-empty frame list (lines 409-414). -/
def decode_all_packets_with_flush (packet_iterator : List packet_data_type)
    (max_packets : Option Nat)
    (decode_fn : packet_data_type → Except VErr (List Frame))
    (flush_result : Except VErr (List Frame)) :
    List (Int × List Frame) × Nat :=
  match packet_iterator with
  | [] => ([], 0)
  | _ :: _ =>
    let entries := decode_entries decode_fn max_packets packet_iterator 0
    let remaining_frames := flush_decoder flush_result
    (entries ++ (if remaining_frames.isEmpty then [] else [(-1, remaining_frames)]), 1)

/-- C5 counterexample: on the non-empty one-packet input whose flush
drains zero frames, decode_all_packets_with_flush emits NO sentinel
entry at all — the claim that it always "emits one final entry with
sentinel ordinal -1 carrying whatever frames the flush drained" fails
whenever the drained frame list is empty (line 412 guards the yield on
`if remaining_frames`). -/
theorem C5_no_flush_entry_counterexample :
    decode_all_packets_with_flush [testPacket 0] none (fun _ => .ok []) (.ok [])
      = ([(0, [])], 1)
    ∧ ∀ e ∈ (decode_all_packets_with_flush [testPacket 0] none
        (fun _ => .ok []) (.ok [])).1, e.1 ≠ -1 := by
  decide

/-- C5 (amended): for every non-empty packet sequence the decoder is
flushed exactly once, after the per-packet scan completes or max_packets
is reached, and the sentinel entry (-1, frames) carrying the drained
frames is appended exactly when the flush drained at least one frame;
when it drained none, no sentinel entry is emitted. -/
theorem C5_flush_exactly_once_amended (p : packet_data_type)
    (rest : List packet_data_type) (max_packets : Option Nat)
    (decode_fn : packet_data_type → Except VErr (List Frame))
    (flush_result : Except VErr (List Frame)) :
    (decode_all_packets_with_flush (p :: rest) max_packets decode_fn flush_result).2 = 1
    ∧ (decode_all_packets_with_flush (p :: rest) max_packets decode_fn flush_result).1
      = decode_entries decode_fn max_packets (p :: rest) 0
        ++ (if (flush_decoder flush_result).isEmpty then []
            else [(-1, flush_decoder flush_result)]) :=
  ⟨rfl, rfl⟩

/-- When max_packets is falsy the scan decodes every packet. -/
theorem decode_entries_no_limit
    (decode_fn : packet_data_type → Except VErr (List Frame))
    (max_packets : Option Nat)
    (h : max_packets_truthy max_packets = false) :
    ∀ (pkts : List packet_data_type) (cnt : Nat),
      decode_entries decode_fn max_packets pkts cnt
        = pkts.map (fun q => (q.1, decode_packet_to_frames (decode_fn q))) := by
  intro pkts
  induction pkts with
  | nil => intro cnt; rfl
  | cons p tl ih =>
    intro cnt
    rw [decode_entries, if_neg (by simp [h]), ih (cnt + 1)]
    rfl

/-- With a positive limit the scan decodes exactly the packets needed to
bring the count up to the limit. -/
theorem decode_entries_limit
    (decode_fn : packet_data_type → Except VErr (List Frame)) (m : Nat) :
    ∀ (pkts : List packet_data_type) (cnt : Nat), cnt < m + 1 →
      decode_entries decode_fn (some (m + 1)) pkts cnt
        = (pkts.take (m + 1 - cnt)).map
            (fun q => (q.1, decode_packet_to_frames (decode_fn q))) := by
  intro pkts
  induction pkts with
  | nil => intro cnt _; simp [decode_entries]
  | cons p tl ih =>
    intro cnt hcnt
    rw [decode_entries]
    by_cases hstop : m + 1 ≤ cnt + 1
    · have hc : cnt = m := by omega
      rw [if_pos (by exact ⟨rfl, by simp [hc]⟩)]
      subst hc
      simp [List.take_succ_cons]
    · rw [if_neg (by simp [Option.getD]; omega), ih (cnt + 1) (by omega)]
      have : m + 1 - cnt = (m + 1 - (cnt + 1)) + 1 := by omega
      rw [this, List.take_succ_cons]
      rfl

/-- C10: `max_packets = 0` is falsy in Python, so passing 0 behaves
exactly like passing None (no limit: every packet is decoded); the bound
is enforced only for a positive limit m+1, in which case the per-packet
entries are precisely the first m+1 packets mapped to (ordinal, frames)
— min(max_packets, length) entries in input order, each carrying its
ordinal even when its frame list is empty. -/
theorem C10_max_packets_zero_means_no_limit
    (pkts : List packet_data_type)
    (decode_fn : packet_data_type → Except VErr (List Frame))
    (flush_result : Except VErr (List Frame)) :
    decode_all_packets_with_flush pkts (some 0) decode_fn flush_result
      = decode_all_packets_with_flush pkts none decode_fn flush_result
    ∧ decode_entries decode_fn (some 0) pkts 0
      = pkts.map (fun q => (q.1, decode_packet_to_frames (decode_fn q)))
    ∧ ∀ m : Nat,
        decode_entries decode_fn (some (m + 1)) pkts 0
          = (pkts.take (m + 1)).map
              (fun q => (q.1, decode_packet_to_frames (decode_fn q)))
        ∧ (decode_entries decode_fn (some (m + 1)) pkts 0).length
          = min (m + 1) pkts.length := by
  refine ⟨?_, decode_entries_no_limit decode_fn (some 0) rfl pkts 0, ?_⟩
  · cases pkts with
    | nil => rfl
    | cons p tl =>
      simp only [decode_all_packets_with_flush,
        decode_entries_no_limit decode_fn (some 0) rfl,
        decode_entries_no_limit decode_fn none rfl]
  · intro m
    have h := decode_entries_limit decode_fn m pkts 0 (by omega)
    simp only [Nat.sub_zero] at h
    refine ⟨h, ?_⟩
    rw [h, List.length_map, List.length_take]

/-- A packet as obtained from `container.demux` after a seek, together
with what `codec_context.decode` would do on it. -/
structure DemuxPacket where
  pts : Option Int
  decode_result : Except VErr (List Frame)

/-- Oracle for one `av.open` of the video file: what `container.seek` at
a given pts does (None means success), what `container.demux` yields
after a successful seek at that pts, and what the final
`codec_context.decode(None)` flush returns. -/
structure SeekContainer where
  seek_result : Int → Option VErr
  demux : Int → List DemuxPacket
  flush_result : Except VErr (List Frame)

/-- The demux/decode loop of `decode_group_by_pts_range`
(vidfile_iterator.py, lines 630-646): skip packets with no pts; decode a
packet when its pts lies in [start_pts, end_pts], swallowing decode
errors (lines 636-642); break after processing a packet whose pts
exceeds end_pts (lines 644-646). -/
def decode_group_by_pts_range_loop (start_pts end_pts : Int) :
    List DemuxPacket → List Frame
  | [] => []
  | dp :: rest =>
    match dp.pts with
    | none => decode_group_by_pts_range_loop start_pts end_pts rest
    | some pts =>
      let fs := if start_pts ≤ pts ∧ pts ≤ end_pts
                then decode_packet_to_frames dp.decode_result else []
      if end_pts < pts then fs
      else fs ++ decode_group_by_pts_range_loop start_pts end_pts rest

/-- Embedding of `decode_group_by_pts_range` (vidfile_iterator.py, lines
606-660).  The function body is a `try ... finally: container.close()`
with NO except clause, so an error raised by `container.seek` (line 624)
propagates to the caller; decode errors and flush errors inside the loop
are caught locally (lines 636-642 and 648-655). -/
def decode_group_by_pts_range (c : SeekContainer) (start_pts end_pts : Int) :
    Except VErr (List Frame) :=
  match c.seek_result start_pts with
  | some e => .error e
  | none =>
    .ok (decode_group_by_pts_range_loop start_pts end_pts (c.demux start_pts)
          ++ flush_decoder c.flush_result)

/-- Pass 2 of `group_packets_by_pts_and_decode_streaming`
(vidfile_iterator.py, lines 594-604): resolve each boundary with
`decode_group_by_pts_range`, yielding only non-empty frame lists (line
603).  The pair returned is (groups yielded, escaped error): an error
raised while resolving a boundary is NOT caught by the generator, so the
enumeration stops there and the error reaches the caller — a boundary
whose recorded start or end pts is None makes `container.seek(None)` /
the range comparison raise a TypeError before anything is decoded. -/
def streaming_pass2 (c : SeekContainer) :
    List BoundaryInfo → List (List Frame) × Option VErr
  | [] => ([], none)
  | ((_, start_pts), (_, end_pts)) :: rest =>
    match start_pts, end_pts with
    | some sp, some ep =>
      (match decode_group_by_pts_range c sp ep with
       | .error e => ([], some e)
       | .ok frames =>
         let r := streaming_pass2 c rest
         (if frames.isEmpty then r.1 else frames :: r.1, r.2))
    | _, _ => ([], some .typeErr)

/-- Embedding of `group_packets_by_pts_and_decode_streaming`
(vidfile_iterator.py, lines 556-604): pass 1 records the boundaries,
pass 2 seeks and decodes each one. -/
def group_packets_by_pts_and_decode_streaming (c : SeekContainer)
    (packet_stream : List packet_data_type)
    (filter_func : packet_data_type → Bool) :
    List (List Frame) × Option VErr :=
  streaming_pass2 c (group_boundaries packet_stream filter_func)

/-- A concrete container whose seek at pts 0 raises while seeks
elsewhere succeed; demux after a successful seek yields one decodable
packet at pts 2. -/
def failingSeekContainer : SeekContainer where
  seek_result := fun s => if s = 0 then some (.err 7) else none
  demux := fun _ => [⟨some 2, .ok [42]⟩]
  flush_result := .ok []

/-- A concrete container whose seeks always succeed but whose only
demuxed packet fails to decode and whose flush also raises — both errors
are swallowed inside the group. -/
def okSeekContainer : SeekContainer where
  seek_result := fun _ => none
  demux := fun _ => [⟨some 5, .error (.err 3)⟩]
  flush_result := .error (.err 4)

/-- C6 counterexample: on a stream producing two boundaries, a seek
error at the first boundary is NOT caught: the enumeration yields zero
groups and the error escapes, even though the second boundary would have
resolved to the frame list [42] — the claim that a seek/decode error
degrades to the frames collected so far and never aborts the enumeration
of subsequent boundaries fails. -/
theorem C6_seek_error_aborts_counterexample :
    group_boundaries [testPacket 0, testPacket 1, testPacket 2]
        (fun q => decide (q.1 ≠ 1))
      = [((0, some 0), (0, some 0)), ((2, some 2), (2, some 2))]
    ∧ group_packets_by_pts_and_decode_streaming failingSeekContainer
        [testPacket 0, testPacket 1, testPacket 2] (fun q => decide (q.1 ≠ 1))
      = ([], some (.err 7))
    ∧ decode_group_by_pts_range failingSeekContainer 2 2 = .ok [42] := by
  refine ⟨by decide, rfl, rfl⟩

/-- C6 (amended): within one boundary group, per-packet decode errors
and flush errors are caught and degrade to the frames collected so far
(a successful seek always produces an ok result), and the enumeration of
boundaries completes without an escaping error whenever every recorded
boundary has concrete start/end pts and its seek succeeds; but an error
raised by the seek itself propagates out of decode_group_by_pts_range
uncaught. -/
theorem C6_decode_errors_degrade_amended :
    (∀ (c : SeekContainer) (sp ep : Int), c.seek_result sp = none →
      decode_group_by_pts_range c sp ep
        = .ok (decode_group_by_pts_range_loop sp ep (c.demux sp)
            ++ flush_decoder c.flush_result))
    ∧ (∀ (c : SeekContainer) (sp ep : Int) (e : VErr),
        c.seek_result sp = some e →
        decode_group_by_pts_range c sp ep = .error e)
    ∧ (∀ (c : SeekContainer) (pkts : List packet_data_type)
        (filter_func : packet_data_type → Bool),
        (∀ b ∈ group_boundaries pkts filter_func,
          (∃ sp, b.1.2 = some sp ∧ c.seek_result sp = none)
            ∧ ∃ ep, b.2.2 = some ep) →
        (group_packets_by_pts_and_decode_streaming c pkts filter_func).2 = none) := by
  refine ⟨?_, ?_, ?_⟩
  · intro c sp ep h
    rw [decode_group_by_pts_range, h]
  · intro c sp ep e h
    rw [decode_group_by_pts_range, h]
  · intro c pkts filter_func hall
    rw [group_packets_by_pts_and_decode_streaming]
    revert hall
    generalize group_boundaries pkts filter_func = bs
    induction bs with
    | nil => intro _; rfl
    | cons b rest ih =>
      intro hall
      obtain ⟨⟨sp, hsp, hseek⟩, ep, hep⟩ := hall b (List.mem_cons_self b rest)
      obtain ⟨⟨n1, spo⟩, n2, epo⟩ := b
      simp only at hsp hep
      subst hsp hep
      rw [streaming_pass2, decode_group_by_pts_range, hseek]
      have := ih (fun b hb => hall b (List.mem_cons_of_mem _ hb))
      by_cases hempty : (decode_group_by_pts_range_loop sp ep (c.demux sp)
          ++ flush_decoder c.flush_result).isEmpty = true
      · simp [hempty, this]
      · simp [hempty, this]

/-- Witness for C6 (amended) at concrete inputs: a container whose
decode and flush both raise still produces an ok group after a
successful seek; a failing seek produces exactly its error; and a
one-boundary stream with successful seeks enumerates without an escaping
error. -/
theorem C6_decode_errors_degrade_witness :
    (okSeekContainer.seek_result 5 = none
      ∧ decode_group_by_pts_range okSeekContainer 5 9
        = .ok (decode_group_by_pts_range_loop 5 9 (okSeekContainer.demux 5)
            ++ flush_decoder okSeekContainer.flush_result))
    ∧ (failingSeekContainer.seek_result 0 = some (VErr.err 7)
        ∧ decode_group_by_pts_range failingSeekContainer 0 3
          = .error (VErr.err 7))
    ∧ ((∀ b ∈ group_boundaries [testPacket 1] (fun _ => true),
          (∃ sp, b.1.2 = some sp ∧ okSeekContainer.seek_result sp = none)
            ∧ ∃ ep, b.2.2 = some ep)
        ∧ (group_packets_by_pts_and_decode_streaming okSeekContainer
            [testPacket 1] (fun _ => true)).2 = none) := by
  refine ⟨⟨rfl, C6_decode_errors_degrade_amended.1 okSeekContainer 5 9 rfl⟩,
    ⟨rfl, C6_decode_errors_degrade_amended.2.1 failingSeekContainer 0 3
      (VErr.err 7) rfl⟩,
    ⟨?_, C6_decode_errors_degrade_amended.2.2 okSeekContainer
      [testPacket 1] (fun _ => true) ?_⟩⟩ <;>
  · intro b hb
    have hb1 : b = ((1, some 1), 1, some 1) := by
      simpa [group_boundaries, group_boundaries_loop, pInfo, testPacket]
        using hb
    subst hb1
    exact ⟨⟨1, rfl, rfl⟩, 1, rfl⟩

/-- The demux/decode loop of `decode_group_with_seek`
(vidfile_iterator.py, lines 478-503): skip packets with no pts; decode a
packet when its pts matches the pts of some packet of the target group
(lines 485-489), swallowing decode errors; break after processing a
packet whose pts exceeds the pts of the last packet of the group (lines
500-503, only when both pts values are present — the loop packet's pts
is already known to be present in this branch). -/
def decode_group_with_seek_loop (group_packets : List packet_data_type)
    (last_pts : Option Int) : List DemuxPacket → List Frame
  | [] => []
  | dp :: rest =>
    match dp.pts with
    | none => decode_group_with_seek_loop group_packets last_pts rest
    | some pts =>
      let fs := if group_packets.any (fun tp => tp.2.pts == some pts)
                then decode_packet_to_frames dp.decode_result else []
      if (match last_pts with
          | some lp => decide (lp < pts)
          | none => false) then fs
      else fs ++ decode_group_with_seek_loop group_packets last_pts rest

/-- Embedding of `decode_group_with_seek` (vidfile_iterator.py, lines
442-517): an empty group returns [] before the file is even opened
(lines 454-455); a first packet without pts returns [] with a warning
(lines 459-461); otherwise the container seeks to the first packet's pts
— inside a `try ... finally` with no except clause, so a seek error
propagates — then demuxes, decodes matching packets and flushes, with
decode and flush errors swallowed (lines 493-498 and 505-512). -/
def decode_group_with_seek (c : SeekContainer)
    (group_packets : List packet_data_type) : Except VErr (List Frame) :=
  match group_packets with
  | [] => .ok []
  | (_, first_packet) :: _ =>
    match first_packet.pts with
    | none => .ok []
    | some first_pts =>
      match c.seek_result first_pts with
      | some e => .error e
      | none =>
        .ok (decode_group_with_seek_loop group_packets
              ((group_packets.getLastD default).2.pts) (c.demux first_pts)
            ++ flush_decoder c.flush_result)

/-- C9: each public operation maps the empty packet sequence to the
empty result without error: the consecutivity filter yields no runs (for
either input kind and either shape), the keyframe grouper yields no
groups, pass 1 records no boundaries and the streaming grouper yields no
groups and no error, decode_all_packets_with_flush yields no entries and
— since no codec context was ever established — performs zero flushes
and emits no sentinel entry, and decode_group_with_seek returns the
empty frame list before touching the container. -/
theorem C9_empty_input_all_operations :
    (∀ (k : PKind) (filter_func : packet_data_type → Bool),
      filter_stream_preserve_consecutivity (.single k []) filter_func = []
      ∧ filter_stream_preserve_consecutivity (.multi k []) filter_func = [])
    ∧ (∀ filter_func : packet_data_type → Bool,
        group_packets_starting_with_keyframe [] filter_func = [])
    ∧ (∀ (c : SeekContainer) (filter_func : packet_data_type → Bool),
        group_boundaries [] filter_func = []
        ∧ group_packets_by_pts_and_decode_streaming c [] filter_func = ([], none))
    ∧ (∀ (max_packets : Option Nat)
        (decode_fn : packet_data_type → Except VErr (List Frame))
        (flush_result : Except VErr (List Frame)),
        decode_all_packets_with_flush [] max_packets decode_fn flush_result
          = ([], 0))
    ∧ (∀ c : SeekContainer, decode_group_with_seek c [] = .ok []) := by
  refine ⟨?_, fun _ => rfl, fun _ _ => ⟨rfl, rfl⟩, fun _ _ _ => rfl, fun _ => rfl⟩
  intro k filter_func
  cases k <;> exact ⟨rfl, rfl⟩

end VidUtils
